import Mathlib

/-!
Verification of the `lico` batch row-transformation engine.

Shallow embedding of the sources:
* `src/lico/core.py`   — `Table`, `Operation`, `RunStatistics`, `apply_to_each`
* `src/lico/io.py`     — `CSVFile.init_from_path`, `RowIterator`, `Task.run`
* `src/lico/lico.py`   — legacy module: `Task.all_results` (resume-from-output)
* `src/lico/exceptions.py` — `LicoError` / `RowProcessError` / `MissingInputColumnError`

A Python row (`dict` of text fields) is a `List (String × String)`, ordered as
the dict is, with `List.lookup` as item access.  Python exceptions are the
inductive `PyExc`; fallible code returns `Except PyExc _`.  Mutation of the
statistics object and of the `RowIterator` cursor is made explicit by threading
state through the recursion.
-/

namespace Lico

/-- A Python row: an insertion-ordered mapping from column name to text value
(`dict` in the source). -/
abbrev Row := List (String × String)

/-- The Python exceptions that appear in the repository, plus `keyError` and
`valueError` from the standard library which the code raises/catches.
`missingInputColumnError` embeds `exceptions.MissingInputColumnError`, the
subclass of `RowProcessError` (the spec calls it `MissingFieldError`).
`configError` embeds the `ConfigError` named by the spec only: no class of that
name exists anywhere in the source. `other` covers any further exception type
raised by user operation code. -/
inductive PyExc where
  | keyError (key : String)
  | rowProcessError (msg : String)
  | missingInputColumnError (msg : String)
  | valueError (msg : String)
  | configError (msg : String)
  | other (msg : String)
  deriving DecidableEq, Repr

/-- `isinstance(e, RowProcessError)`: true for `RowProcessError` itself and for
its subclass `MissingInputColumnError` (exceptions.py lines 5-10). This is the
test performed by `except RowProcessError` in core.py line 192. -/
def isRowProcessError : PyExc → Bool
  | .rowProcessError _ => true
  | .missingInputColumnError _ => true
  | _ => false

/-- True exactly for the `MissingInputColumnError` subclass (the spec's
`MissingFieldError`). -/
def isMissingFieldError : PyExc → Bool
  | .missingInputColumnError _ => true
  | _ => false

/-- True exactly for the spec-named `ConfigError` (which the source never
defines or raises). -/
def isConfigError : PyExc → Bool
  | .configError _ => true
  | _ => false

/-- Python `str(KeyError(k))`: the missing key surrounded by single quotes. -/
def pyQuote (k : String) : String := "\x27" ++ k ++ "\x27"

/-- First-some choice on options: `optOr a b` is `a` unless `a` is `none`.
Used to state the Python dict-merge rule (later operand wins). -/
def optOr (a b : Option α) : Option α :=
  match a with
  | some v => some v
  | none => b

/-- Python `{**a, **b}`: keys of `a` in their order with values overridden by
`b` where present, followed by the entries of `b` whose keys are absent from
`a`, in their order (core.py line 191). -/
def dictMerge (a b : Row) : Row :=
  a.map (fun kv => (kv.1, (List.lookup kv.1 b).getD kv.2)) ++
    b.filter (fun kv => (List.lookup kv.1 a).isNone)

/-- `core.Operation` (core.py lines 69-133): a user-supplied row transformation.
`apply` may return a partial row or raise any exception; `has_previous_result`
is the resumability predicate (base-class default: always `false`). -/
structure Operation where
  apply : Row → Except PyExc Row
  has_previous_result : Row → Bool

/-- `core.Operation.apply_safe` (core.py lines 85-107): call `apply`; a
`KeyError` is converted to `RowProcessError(f'Missing column {str(e)}')`; all
other outcomes pass through unchanged. -/
def Operation.apply_safe (op : Operation) (row : Row) : Except PyExc Row :=
  match op.apply row with
  | .error (.keyError k) =>
      .error (.rowProcessError ("Missing column " ++ pyQuote k))
  | r => r

/-- `core.RunStatistics` (core.py lines 136-147). -/
structure RunStatistics where
  completed : Nat
  skipped : Nat
  failed : Nat
  errors : List PyExc
  deriving DecidableEq, Repr

/-- Result of draining the generator `core.apply_to_each` over a finite input
sequence: the rows emitted so far, the statistics object at exit, and — when an
exception propagated out of the generator — the exception, the row being
processed when it was raised (already consumed from the input), and the rows of
the input sequence never consumed. -/
structure EngineResult where
  emitted : List Row
  stats : RunStatistics
  abort : Option (PyExc × Row × List Row)
  deriving DecidableEq, Repr

/-- `core.apply_to_each` (core.py lines 150-199), drained eagerly over a list.
Per row: skip when `skip_previous_results and operation.has_previous_result(row)`
(emit unchanged, `skipped += 1`); otherwise call `apply_safe`; on success emit
`{**input_row, **result}` with `completed += 1`; on `RowProcessError` either
emit the row unchanged with `failed += 1` and the error appended to
`statistics.errors` (when `skip_failing_rows`) or re-raise; any other exception
propagates out of the generator with statistics untouched for that row. -/
def apply_to_each (op : Operation) (skip_failing_rows skip_previous_results : Bool)
    (rows : List Row) (stats : RunStatistics) : EngineResult :=
  match rows with
  | [] => ⟨[], stats, none⟩
  | row :: rest =>
    if skip_previous_results && op.has_previous_result row then
      let r := apply_to_each op skip_failing_rows skip_previous_results rest
        ⟨stats.completed, stats.skipped + 1, stats.failed, stats.errors⟩
      ⟨row :: r.emitted, r.stats, r.abort⟩
    else
      match op.apply_safe row with
      | .ok result =>
        let r := apply_to_each op skip_failing_rows skip_previous_results rest
          ⟨stats.completed + 1, stats.skipped, stats.failed, stats.errors⟩
        ⟨dictMerge row result :: r.emitted, r.stats, r.abort⟩
      | .error e =>
        if isRowProcessError e then
          if skip_failing_rows then
            let r := apply_to_each op skip_failing_rows skip_previous_results rest
              ⟨stats.completed, stats.skipped, stats.failed + 1, stats.errors ++ [e]⟩
            ⟨row :: r.emitted, r.stats, r.abort⟩
          else ⟨[], stats, some (e, row, rest)⟩
        else ⟨[], stats, some (e, row, rest)⟩

/-- The row the engine emits for one input row when no exception propagates:
the row itself when skipped or recoverably failing, the merge on success,
`none` when the row aborts the sequence.  Derived from the same branch
structure as `apply_to_each`. -/
def row_result (op : Operation) (skip_failing_rows skip_previous_results : Bool)
    (row : Row) : Option Row :=
  if skip_previous_results && op.has_previous_result row then some row
  else
    match op.apply_safe row with
    | .ok result => some (dictMerge row result)
    | .error e =>
      if isRowProcessError e then
        if skip_failing_rows then some row else none
      else none

/-- `io.Task` (io.py lines 107-130): the operation and the in-memory content of
`self.input_file` (a `CSVFile` loaded at `__init__` from the configured input;
`run()` never consults the output location). -/
structure Task where
  operation : Operation
  input_content : List Row

/-- Outcome of `io.Task.run` (io.py lines 132-164): the rows written to the
output location, the final statistics, the exception re-raised to the caller
(if any), and the state of `self.input_file.content` after the run (the
`RowIterator` pops rows from that very list object). -/
structure TaskResult where
  output : List Row
  stats : RunStatistics
  raised : Option PyExc
  finalInput : List Row
  deriving DecidableEq, Repr

/-- `io.Task.run` (io.py lines 132-164).  `RowIterator.__next__` (io.py line
102) takes `rows_left.pop()` — the *last* element — so the engine consumes the
input content in reverse order.  On an exception escaping the engine, the
output becomes the emitted rows followed by `[rows_returned[-1]] + rows_left`
(the in-flight row, then the rows never popped, still in list order),
statistics are updated (`skipped += len(unprocessed) - 1`, `failed += 1`, the
error appended), the output is saved and the exception re-raised.  File writing
itself is assumed to succeed. -/
def task_finish (r : EngineResult) : TaskResult :=
  match r.abort with
  | none => ⟨r.emitted, r.stats, none, []⟩
  | some (e, failing, remaining) =>
    let rows_left := remaining.reverse
    let unprocessed := failing :: rows_left
    ⟨r.emitted ++ unprocessed,
     ⟨r.stats.completed, r.stats.skipped + (unprocessed.length - 1),
      r.stats.failed + 1, r.stats.errors ++ [e]⟩,
     some e, rows_left⟩

/-- `io.Task.run`, as one function of the task state. -/
def Task.run (t : Task) : TaskResult :=
  task_finish (apply_to_each t.operation true true t.input_content.reverse ⟨0, 0, 0, []⟩)

/-- A row of `Task.run` output is accounted for: it is an input row unchanged,
or an input row merged with a successful `apply_safe` result. -/
def RowProvenance (op : Operation) (rows : List Row) (o : Row) : Prop :=
  (∃ r, r ∈ rows ∧ o = r) ∨
    (∃ r res, r ∈ rows ∧ op.apply_safe r = .ok res ∧ o = dictMerge r res)

/-- `core.Table` (core.py lines 13-66): rows plus remembered column order. -/
structure Table where
  content : List Row
  column_order : List String
  deriving DecidableEq, Repr

/-- Every column name occurring in some row of the table, with repetition, in
row order then per-row insertion order. -/
def contentKeys (t : Table) : List String :=
  (t.content.map (fun r => r.map Prod.fst)).flatten

/-- `core.Table.get_fieldnames` (core.py lines 61-66) computes
`set().union(*[x.keys() for x in self.content]).difference(set(fieldnames))`
and appends `list(extra)`.  CPython iterates a set of strings in hash order,
which is unspecified (and randomized across processes), so the embedding takes
the listing `enum` of that set as a parameter constrained only by
`ValidExtrasEnum`. -/
def get_fieldnames (t : Table) (enum : List String) : List String :=
  t.column_order ++ enum

/-- What Python guarantees about `list(extra)`: a duplicate-free listing of
exactly the column names that occur in some row but not in `column_order`. -/
def ValidExtrasEnum (t : Table) (enum : List String) : Prop :=
  enum.Nodup ∧ ∀ k, k ∈ enum ↔ (k ∈ contentKeys t ∧ k ∉ t.column_order)

/-- `collections.OrderedDict` de-duplication used by `core.Table.concat`
(core.py lines 54-58): keep the first occurrence of each name, in order.
`seen` accumulates the names already kept. -/
def dedupAux : List String → List String → List String
  | [], _ => []
  | x :: xs, seen =>
    if seen.contains x then dedupAux xs seen
    else x :: dedupAux xs (seen ++ [x])

/-- `list(OrderedDict((f, True) for f in l).keys())`: first occurrences in
order. -/
def dedupKeepFirst (l : List String) : List String := dedupAux l []

/-- Modelled from the spec: the spec's claimed order for the extra column
names of `get_fieldnames` — first-encountered order across the rows.  The
source (core.py lines 64-66) instead lists a Python set. -/
def firstEncounteredExtras (t : Table) : List String :=
  dedupKeepFirst ((contentKeys t).filter (fun k => !(t.column_order.contains k)))

/-- `core.Table.concat` (core.py lines 52-59): rows of `other` are appended and
the column order becomes the first-occurrence de-duplication of
`self.get_fieldnames() + other.get_fieldnames()`.  `enumT`/`enumO` are the set
listings of the two `get_fieldnames` calls. -/
def Table.concat (t o : Table) (enumT enumO : List String) : Table :=
  ⟨t.content ++ o.content,
   dedupKeepFirst (get_fieldnames t enumT ++ get_fieldnames o enumO)⟩

/-- Fixed stand-in for the `ValueError` message of io.py lines 62-66 (the
dynamic f-string is abridged; only the exception type matters here). -/
def csvMismatchMsg : String :=
  "fieldnames given do not match number of columns found in file"

/-- `io.CSVFile.init_from_path` (io.py lines 39-71) after the csv module has
produced the header and the rows.  `column_names` is the optional override;
Python tests it with `if column_names:` so an empty list is treated exactly
like `None`.  A non-empty override whose length differs from the header count
raises `ValueError`; otherwise the override (or the header) becomes the column
order. -/
def CSVFile.init_from_path (header : List String) (rows : List Row)
    (column_names : Option (List String)) : Except PyExc Table :=
  match column_names with
  | some (n :: ns) =>
    if (n :: ns).length = header.length then .ok ⟨rows, n :: ns⟩
    else .error (.valueError csvMismatchMsg)
  | some [] => .ok ⟨rows, header⟩
  | none => .ok ⟨rows, header⟩

/-- The file-system facts `Task` construction and the legacy
`Task.all_results` can observe: whether a file exists at the output location,
and the tables stored at the two locations. -/
structure Env where
  output_exists : Bool
  output_table : List Row
  input_table : List Row

/-- The input table `io.Task.run` iterates over: `Task.__init__` (io.py lines
125-128) loads `self.input_file` from the configured input (path or `CSVFile`
object) and `run()` (io.py line 138) reads `self.input_file.content`; the
output location is never consulted. -/
def task_run_input (env : Env) : List Row := env.input_table

/-- The legacy `lico.Task.all_results` (lico.py lines 292-299): load from the
output location when a file exists there, else from the input location. -/
def lico_all_results_input (env : Env) : List Row :=
  if env.output_exists then env.output_table else env.input_table

/-! ### Engine unfolding lemmas, one per branch of `apply_to_each` -/

lemma apply_to_each_cons_skip (op : Operation) (sf sp : Bool) (row : Row)
    (rest : List Row) (stats : RunStatistics)
    (h : (sp && op.has_previous_result row) = true) :
    apply_to_each op sf sp (row :: rest) stats =
      ⟨row :: (apply_to_each op sf sp rest
          ⟨stats.completed, stats.skipped + 1, stats.failed, stats.errors⟩).emitted,
       (apply_to_each op sf sp rest
          ⟨stats.completed, stats.skipped + 1, stats.failed, stats.errors⟩).stats,
       (apply_to_each op sf sp rest
          ⟨stats.completed, stats.skipped + 1, stats.failed, stats.errors⟩).abort⟩ := by
  simp [apply_to_each, h]

lemma apply_to_each_cons_ok (op : Operation) (sf sp : Bool) (row res : Row)
    (rest : List Row) (stats : RunStatistics)
    (h : (sp && op.has_previous_result row) = false)
    (ha : op.apply_safe row = .ok res) :
    apply_to_each op sf sp (row :: rest) stats =
      ⟨dictMerge row res :: (apply_to_each op sf sp rest
          ⟨stats.completed + 1, stats.skipped, stats.failed, stats.errors⟩).emitted,
       (apply_to_each op sf sp rest
          ⟨stats.completed + 1, stats.skipped, stats.failed, stats.errors⟩).stats,
       (apply_to_each op sf sp rest
          ⟨stats.completed + 1, stats.skipped, stats.failed, stats.errors⟩).abort⟩ := by
  simp [apply_to_each, h, ha]

lemma apply_to_each_cons_failskip (op : Operation) (sp : Bool) (row : Row)
    (rest : List Row) (stats : RunStatistics) (e : PyExc)
    (h : (sp && op.has_previous_result row) = false)
    (ha : op.apply_safe row = .error e)
    (hr : isRowProcessError e = true) :
    apply_to_each op true sp (row :: rest) stats =
      ⟨row :: (apply_to_each op true sp rest
          ⟨stats.completed, stats.skipped, stats.failed + 1, stats.errors ++ [e]⟩).emitted,
       (apply_to_each op true sp rest
          ⟨stats.completed, stats.skipped, stats.failed + 1, stats.errors ++ [e]⟩).stats,
       (apply_to_each op true sp rest
          ⟨stats.completed, stats.skipped, stats.failed + 1, stats.errors ++ [e]⟩).abort⟩ := by
  simp [apply_to_each, h, ha, hr]

lemma apply_to_each_cons_raise (op : Operation) (sp : Bool) (row : Row)
    (rest : List Row) (stats : RunStatistics) (e : PyExc)
    (h : (sp && op.has_previous_result row) = false)
    (ha : op.apply_safe row = .error e)
    (hr : isRowProcessError e = true) :
    apply_to_each op false sp (row :: rest) stats = ⟨[], stats, some (e, row, rest)⟩ := by
  simp [apply_to_each, h, ha, hr]

lemma apply_to_each_cons_fatal (op : Operation) (sf sp : Bool) (row : Row)
    (rest : List Row) (stats : RunStatistics) (e : PyExc)
    (h : (sp && op.has_previous_result row) = false)
    (ha : op.apply_safe row = .error e)
    (hr : isRowProcessError e = false) :
    apply_to_each op sf sp (row :: rest) stats = ⟨[], stats, some (e, row, rest)⟩ := by
  simp [apply_to_each, h, ha, hr]

/-! ### Provenance helpers -/

lemma rowProvenance_of_mem (op : Operation) {rows : List Row} {o : Row}
    (h : o ∈ rows) : RowProvenance op rows o :=
  Or.inl ⟨o, h, rfl⟩

lemma rowProvenance_mono (op : Operation) (row : Row) {rest : List Row} {o : Row}
    (h : RowProvenance op rest o) : RowProvenance op (row :: rest) o := by
  rcases h with ⟨r, hr, ho⟩ | ⟨r, res, hr, ha, ho⟩
  · exact Or.inl ⟨r, List.mem_cons_of_mem _ hr, ho⟩
  · exact Or.inr ⟨r, res, List.mem_cons_of_mem _ hr, ha, ho⟩

lemma rowProvenance_reverse (op : Operation) {rows : List Row} {o : Row}
    (h : RowProvenance op rows.reverse o) : RowProvenance op rows o := by
  rcases h with ⟨r, hr, ho⟩ | ⟨r, res, hr, ha, ho⟩
  · exact Or.inl ⟨r, List.mem_reverse.mp hr, ho⟩
  · exact Or.inr ⟨r, res, List.mem_reverse.mp hr, ha, ho⟩

/-! ### Structural facts about one engine drain -/

/-- Every emitted row is accounted for; without an abort exactly one row is
emitted per input row; with an abort the input splits as
`consumed ++ failing :: remaining` and the emitted rows match the consumed
ones. -/
lemma apply_to_each_shape (op : Operation) (sf sp : Bool) (rows : List Row) :
    ∀ stats : RunStatistics,
      (∀ o ∈ (apply_to_each op sf sp rows stats).emitted, RowProvenance op rows o) ∧
      ((apply_to_each op sf sp rows stats).abort = none →
        (apply_to_each op sf sp rows stats).emitted.length = rows.length) ∧
      (∀ e fr rem, (apply_to_each op sf sp rows stats).abort = some (e, fr, rem) →
        ∃ pre, rows = pre ++ fr :: rem ∧
          (apply_to_each op sf sp rows stats).emitted.length = pre.length) := by
  induction rows with
  | nil =>
    intro stats
    refine ⟨by simp [apply_to_each], fun _ => rfl, ?_⟩
    intro e fr rem h
    simp [apply_to_each] at h
  | cons row rest ih =>
    intro stats
    cases hcb : sp && op.has_previous_result row with
    | true =>
      rw [apply_to_each_cons_skip op sf sp row rest stats hcb]
      obtain ⟨ihp, ihn, iha⟩ :=
        ih ⟨stats.completed, stats.skipped + 1, stats.failed, stats.errors⟩
      refine ⟨?_, ?_, ?_⟩
      · intro o ho
        rcases List.mem_cons.mp ho with rfl | ho
        · exact rowProvenance_of_mem op (List.mem_cons_self _ _)
        · exact rowProvenance_mono op row (ihp o ho)
      · intro hn
        simpa using ihn hn
      · intro e fr rem ha
        obtain ⟨pre, hpre, hlen⟩ := iha e fr rem ha
        exact ⟨row :: pre, by simp [hpre], by simpa using hlen⟩
    | false =>
      cases ha : op.apply_safe row with
      | ok res =>
        rw [apply_to_each_cons_ok op sf sp row res rest stats hcb ha]
        obtain ⟨ihp, ihn, iha⟩ :=
          ih ⟨stats.completed + 1, stats.skipped, stats.failed, stats.errors⟩
        refine ⟨?_, ?_, ?_⟩
        · intro o ho
          rcases List.mem_cons.mp ho with rfl | ho
          · exact Or.inr ⟨row, res, List.mem_cons_self _ _, ha, rfl⟩
          · exact rowProvenance_mono op row (ihp o ho)
        · intro hn
          simpa using ihn hn
        · intro e fr rem hab
          obtain ⟨pre, hpre, hlen⟩ := iha e fr rem hab
          exact ⟨row :: pre, by simp [hpre], by simpa using hlen⟩
      | error e =>
        cases hr : isRowProcessError e with
        | true =>
          cases sf with
          | true =>
            rw [apply_to_each_cons_failskip op sp row rest stats e hcb ha hr]
            obtain ⟨ihp, ihn, iha⟩ :=
              ih ⟨stats.completed, stats.skipped, stats.failed + 1, stats.errors ++ [e]⟩
            refine ⟨?_, ?_, ?_⟩
            · intro o ho
              rcases List.mem_cons.mp ho with rfl | ho
              · exact rowProvenance_of_mem op (List.mem_cons_self _ _)
              · exact rowProvenance_mono op row (ihp o ho)
            · intro hn
              simpa using ihn hn
            · intro e' fr rem hab
              obtain ⟨pre, hpre, hlen⟩ := iha e' fr rem hab
              exact ⟨row :: pre, by simp [hpre], by simpa using hlen⟩
          | false =>
            rw [apply_to_each_cons_raise op sp row rest stats e hcb ha hr]
            refine ⟨by simp, ?_, ?_⟩
            · intro hn; cases hn
            intro e' fr rem hab
            obtain ⟨rfl, rfl, rfl⟩ : e = e' ∧ row = fr ∧ rest = rem := by
              simpa [Prod.ext_iff] using hab
            exact ⟨[], rfl, rfl⟩
        | false =>
          rw [apply_to_each_cons_fatal op sf sp row rest stats e hcb ha hr]
          refine ⟨by simp, ?_, ?_⟩
          · intro hn; cases hn
          intro e' fr rem hab
          obtain ⟨rfl, rfl, rfl⟩ : e = e' ∧ row = fr ∧ rest = rem := by
            simpa [Prod.ext_iff] using hab
          exact ⟨[], rfl, rfl⟩

/-- When every row of a table already carries a previous result, the engine
with `skip_previous_results` emits every row unchanged, counts them all as
skipped, and never calls `apply`. -/
lemma apply_to_each_all_skip (op : Operation) (sf : Bool) (rows : List Row) :
    ∀ stats : RunStatistics, (∀ r ∈ rows, op.has_previous_result r = true) →
      apply_to_each op sf true rows stats =
        ⟨rows, ⟨stats.completed, stats.skipped + rows.length, stats.failed, stats.errors⟩,
         none⟩ := by
  induction rows with
  | nil => intro stats _; simp [apply_to_each]
  | cons row rest ih =>
    intro stats h
    rw [apply_to_each_cons_skip op sf true row rest stats
      (by simp [h row (List.mem_cons_self _ _)])]
    rw [ih ⟨stats.completed, stats.skipped + 1, stats.failed, stats.errors⟩
      (fun r hr => h r (List.mem_cons_of_mem _ hr))]
    simp [Nat.add_assoc, Nat.add_comm 1]

/-- When no row aborts the drain, the engine emits exactly the per-row results,
one per input row, in input order. -/
lemma apply_to_each_map (op : Operation) (sf sp : Bool) (rows : List Row) :
    ∀ stats : RunStatistics, (∀ r ∈ rows, (row_result op sf sp r).isSome = true) →
      ∃ s, apply_to_each op sf sp rows stats =
        ⟨rows.map (fun r => (row_result op sf sp r).getD r), s, none⟩ := by
  induction rows with
  | nil => intro stats _; exact ⟨stats, rfl⟩
  | cons row rest ih =>
    intro stats h
    have hrow := h row (List.mem_cons_self _ _)
    have hrest := fun r hr => h r (List.mem_cons_of_mem row hr)
    cases hcb : sp && op.has_previous_result row with
    | true =>
      obtain ⟨s, hs⟩ :=
        ih ⟨stats.completed, stats.skipped + 1, stats.failed, stats.errors⟩ hrest
      refine ⟨s, ?_⟩
      rw [apply_to_each_cons_skip op sf sp row rest stats hcb, hs]
      have hres : row_result op sf sp row = some row := by simp [row_result, hcb]
      simp [hres]
    | false =>
      cases ha : op.apply_safe row with
      | ok res =>
        obtain ⟨s, hs⟩ :=
          ih ⟨stats.completed + 1, stats.skipped, stats.failed, stats.errors⟩ hrest
        refine ⟨s, ?_⟩
        rw [apply_to_each_cons_ok op sf sp row res rest stats hcb ha, hs]
        have hres : row_result op sf sp row = some (dictMerge row res) := by
          simp [row_result, hcb, ha]
        simp [hres]
      | error e =>
        cases hr : isRowProcessError e with
        | true =>
          cases sf with
          | true =>
            obtain ⟨s, hs⟩ :=
              ih ⟨stats.completed, stats.skipped, stats.failed + 1, stats.errors ++ [e]⟩
                hrest
            refine ⟨s, ?_⟩
            rw [apply_to_each_cons_failskip op sp row rest stats e hcb ha hr, hs]
            have hres : row_result op true sp row = some row := by
              simp [row_result, hcb, ha, hr]
            simp [hres]
          | false =>
            exfalso
            simp [row_result, hcb, ha, hr] at hrow
        | false =>
          exfalso
          simp [row_result, hcb, ha, hr] at hrow

/-! ### Dict-merge lookup facts -/

lemma lookup_append_or (k : String) (l1 l2 : Row) :
    List.lookup k (l1 ++ l2) = optOr (List.lookup k l1) (List.lookup k l2) := by
  induction l1 with
  | nil => simp [optOr]
  | cons kv rest ih =>
    obtain ⟨k1, v1⟩ := kv
    cases hbe : k == k1 with
    | true => simp [List.lookup_cons, hbe, optOr]
    | false => simp [List.lookup_cons, hbe, ih]

lemma lookup_map_override (k : String) (a b : Row) :
    List.lookup k (a.map (fun kv => (kv.1, (List.lookup kv.1 b).getD kv.2))) =
      (List.lookup k a).map (fun v => (List.lookup k b).getD v) := by
  induction a with
  | nil => simp
  | cons kv rest ih =>
    obtain ⟨k1, v1⟩ := kv
    cases hbe : k == k1 with
    | true =>
      have hk : k = k1 := by simpa using hbe
      subst hk
      simp [List.lookup_cons]
    | false => simp [List.lookup_cons, hbe, ih]

lemma lookup_filter_absent (k : String) (a b : Row) :
    List.lookup k (b.filter (fun kv => (List.lookup kv.1 a).isNone)) =
      if (List.lookup k a).isNone = true then List.lookup k b else none := by
  induction b with
  | nil => simp
  | cons kv rest ih =>
    obtain ⟨k1, v1⟩ := kv
    cases hf : (List.lookup k1 a).isNone with
    | true =>
      cases hbe : k == k1 with
      | true =>
        have hk : k = k1 := by simpa using hbe
        subst hk
        simp [List.filter_cons, hf, List.lookup_cons]
      | false => simp [List.filter_cons, hf, List.lookup_cons, hbe, ih]
    | false =>
      cases hbe : k == k1 with
      | true =>
        have hk : k = k1 := by simpa using hbe
        subst hk
        simp [List.filter_cons, hf, ih]
      | false => simp [List.filter_cons, hf, List.lookup_cons, hbe, ih]

/-- Python merge semantics: a key present in `b` takes the `b` value, any other
key keeps its `a` value. -/
lemma lookup_dictMerge (a b : Row) (k : String) :
    List.lookup k (dictMerge a b) = optOr (List.lookup k b) (List.lookup k a) := by
  rw [dictMerge, lookup_append_or, lookup_map_override, lookup_filter_absent]
  cases hla : List.lookup k a with
  | none => cases hlb : List.lookup k b <;> simp [optOr, hlb]
  | some v => cases hlb : List.lookup k b <;> simp [optOr, hlb]

/-! ### First-occurrence de-duplication facts -/

lemma dedupAux_append (a : List String) :
    ∀ b seen : List String,
      dedupAux (a ++ b) seen = dedupAux a seen ++ dedupAux b (seen ++ dedupAux a seen) := by
  induction a with
  | nil => intro b seen; simp [dedupAux]
  | cons x a' ih =>
    intro b seen
    by_cases hm : x ∈ seen <;> simp [dedupAux, hm, ih]

lemma dedupAux_nodup_filter (b : List String) :
    ∀ seen : List String, b.Nodup →
      dedupAux b seen = b.filter (fun k => !(seen.contains k)) := by
  induction b with
  | nil => intro seen _; simp [dedupAux]
  | cons x b' ih =>
    intro seen hnd
    obtain ⟨hx, hnd'⟩ := List.nodup_cons.mp hnd
    by_cases hm : x ∈ seen
    · simp [dedupAux, hm, List.filter_cons, ih seen hnd']
    · have hstep : dedupAux (x :: b') seen = x :: dedupAux b' (seen ++ [x]) := by
        simp [dedupAux, hm]
      rw [hstep, ih (seen ++ [x]) hnd']
      have hfix : List.filter (fun k => !((seen ++ [x]).contains k)) b' =
          List.filter (fun k => !(seen.contains k)) b' := by
        apply List.filter_congr
        intro k hk
        have hkx : k ≠ x := fun h => hx (h ▸ hk)
        simp [List.contains, List.elem_eq_mem, List.mem_append, hkx]
      rw [hfix]
      have hcf : seen.contains x = false := by
        simpa [List.contains, List.elem_eq_mem] using hm
      simp [List.filter_cons, hcf, hm]

/-! ### Task.run unfolding lemmas -/

lemma task_finish_none (r : EngineResult) (h : r.abort = none) :
    task_finish r = ⟨r.emitted, r.stats, none, []⟩ := by
  simp [task_finish, h]

lemma task_finish_some (r : EngineResult) (e : PyExc) (fr : Row) (rem : List Row)
    (h : r.abort = some (e, fr, rem)) :
    task_finish r =
      ⟨r.emitted ++ fr :: rem.reverse,
       ⟨r.stats.completed, r.stats.skipped + rem.length,
        r.stats.failed + 1, r.stats.errors ++ [e]⟩,
       some e, rem.reverse⟩ := by
  simp [task_finish, h]

/-! ### Fixtures: concrete operations, rows and tasks for witnesses -/

/-- Fixture: an operation that succeeds on every row and returns no fields. -/
def noopOp : Operation := ⟨fun _ => .ok [], fun _ => false⟩

/-- Fixture: an operation that raises `ValueError` (not a `RowProcessError`)
on every row, like the unstable server of tests/test_core.py `test_task`. -/
def failOp : Operation := ⟨fun _ => .error (.valueError "boom"), fun _ => false⟩

/-- Fixture: an operation that raises `RowProcessError` on every row. -/
def rpeOp : Operation := ⟨fun _ => .error (.rowProcessError "bad"), fun _ => false⟩

/-- Fixture: an operation that reports a previous result on every row. -/
def skipOp : Operation := ⟨fun _ => .ok [], fun _ => true⟩

/-- Fixture: an operation whose `apply` hits a missing dict key. -/
def keyErrOp : Operation := ⟨fun _ => .error (.keyError "date"), fun _ => false⟩

/-- Fixture rows. -/
def row0 : Row := [("k", "0")]

def row1 : Row := [("k", "1")]

/-! ### C1 -/

/-- C1: whatever `Task.run` does — return normally or re-raise — the output
table has exactly one row per input row: none dropped, none invented; each
output row is an input row unchanged or an input row merged with its
successful `apply_safe` result; a re-raised fault was recorded in the saved
statistics. -/
theorem task_run_row_conservation (t : Task) :
    (Task.run t).output.length = t.input_content.length ∧
    (∀ o ∈ (Task.run t).output, RowProvenance t.operation t.input_content o) ∧
    (∀ e, (Task.run t).raised = some e → e ∈ (Task.run t).stats.errors) := by
  obtain ⟨hprov, hnone, habort⟩ :=
    apply_to_each_shape t.operation true true t.input_content.reverse ⟨0, 0, 0, []⟩
  unfold Task.run
  cases hab : (apply_to_each t.operation true true t.input_content.reverse
      ⟨0, 0, 0, []⟩).abort with
  | none =>
    rw [task_finish_none _ hab]
    refine ⟨?_, ?_, ?_⟩
    · simpa using hnone hab
    · intro o ho
      exact rowProvenance_reverse _ (hprov o ho)
    · intro e he
      cases he
  | some x =>
    obtain ⟨e, fr, rem⟩ := x
    obtain ⟨pre, hpre, hlen⟩ := habort e fr rem hab
    rw [task_finish_some _ e fr rem hab]
    refine ⟨?_, ?_, ?_⟩
    · have hcl : t.input_content.length = pre.length + (rem.length + 1) := by
        have := congrArg List.length hpre
        simpa [Nat.add_comm, Nat.add_left_comm] using this
      simp [List.length_append, hlen, hcl]
    · intro o ho
      rcases List.mem_append.mp ho with hoe | hou
      · exact rowProvenance_reverse _ (hprov o hoe)
      · refine rowProvenance_of_mem _ (List.mem_reverse.mp ?_)
        rw [hpre]
        rcases List.mem_cons.mp hou with rfl | hor
        · exact List.mem_append.mpr (Or.inr (List.mem_cons_self _ _))
        · exact List.mem_append.mpr
            (Or.inr (List.mem_cons_of_mem _ (List.mem_reverse.mp hor)))
    · intro e' he'
      obtain rfl : e = e' := by simpa using he'
      simp

/-- Closed instance of C1: the always-raising task over two rows writes both
rows and records the fault. -/
theorem task_run_row_conservation_witness :
    (Task.run ⟨failOp, [row0, row1]⟩).output.length = 2 ∧
    PyExc.valueError "boom" ∈ (Task.run ⟨failOp, [row0, row1]⟩).stats.errors :=
  ⟨(task_run_row_conservation ⟨failOp, [row0, row1]⟩).1,
   (task_run_row_conservation ⟨failOp, [row0, row1]⟩).2.2 _ rfl⟩

/-! ### C3 -/

/-- C3 counterexample: a run that completes normally over two distinct rows
writes them in the opposite order — `Task.run` does not write rows in the
order of its input table (`RowIterator` pops from the end of the list). -/
theorem task_run_output_reversed :
    (Task.run ⟨noopOp, [row0, row1]⟩).raised = none ∧
    (Task.run ⟨noopOp, [row0, row1]⟩).output ≠ [row0, row1] := by decide

/-- C3 (amended): the engine `apply_to_each` emits exactly one row per input
row, in input order, whenever no row aborts the drain; but the rows
`Task.run` writes appear in *reverse* order of the input table, one per input
row. -/
theorem engine_input_order_task_reversed (op : Operation) (sf sp : Bool)
    (rows : List Row) (stats : RunStatistics) (t : Task) :
    ((∀ r ∈ rows, (row_result op sf sp r).isSome = true) →
      (apply_to_each op sf sp rows stats).emitted =
        rows.map (fun r => (row_result op sf sp r).getD r) ∧
      (apply_to_each op sf sp rows stats).abort = none) ∧
    ((∀ r ∈ t.input_content, (row_result t.operation true true r).isSome = true) →
      (Task.run t).output =
        t.input_content.reverse.map
          (fun r => (row_result t.operation true true r).getD r)) := by
  constructor
  · intro h
    obtain ⟨s, hs⟩ := apply_to_each_map op sf sp rows stats h
    rw [hs]
    exact ⟨rfl, rfl⟩
  · intro h
    have h' : ∀ r ∈ t.input_content.reverse,
        (row_result t.operation true true r).isSome = true :=
      fun r hr => h r (List.mem_reverse.mp hr)
    obtain ⟨s, hs⟩ :=
      apply_to_each_map t.operation true true t.input_content.reverse ⟨0, 0, 0, []⟩ h'
    unfold Task.run
    rw [task_finish_none _ (by rw [hs]), hs]

/-- Closed instance of C3 (amended): the no-op task over two rows completes
normally with its rows reversed. -/
theorem engine_input_order_task_reversed_witness :
    (Task.run ⟨noopOp, [row0, row1]⟩).output = [row1, row0] := by
  have h := (engine_input_order_task_reversed noopOp true true [] ⟨0, 0, 0, []⟩
    ⟨noopOp, [row0, row1]⟩).2 (by decide)
  rw [h]
  decide

/-! ### C5 -/

/-- C5: a row raising `RowProcessError`: with `skip_failing_rows` the engine
emits the row unchanged, adds one to `failed`, appends the error to
`statistics.errors`, and the error does not abort the drain; without
`skip_failing_rows` the error propagates at once and nothing further is
emitted. -/
theorem engine_rowprocesserror_policy (op : Operation) (sp : Bool) (row : Row)
    (rest : List Row) (stats : RunStatistics) (e : PyExc)
    (hskip : (sp && op.has_previous_result row) = false)
    (happ : op.apply_safe row = .error e)
    (hrpe : isRowProcessError e = true) :
    apply_to_each op true sp (row :: rest) stats =
      ⟨row :: (apply_to_each op true sp rest
          ⟨stats.completed, stats.skipped, stats.failed + 1, stats.errors ++ [e]⟩).emitted,
       (apply_to_each op true sp rest
          ⟨stats.completed, stats.skipped, stats.failed + 1, stats.errors ++ [e]⟩).stats,
       (apply_to_each op true sp rest
          ⟨stats.completed, stats.skipped, stats.failed + 1, stats.errors ++ [e]⟩).abort⟩ ∧
    apply_to_each op false sp (row :: rest) stats = ⟨[], stats, some (e, row, rest)⟩ :=
  ⟨apply_to_each_cons_failskip op sp row rest stats e hskip happ hrpe,
   apply_to_each_cons_raise op sp row rest stats e hskip happ hrpe⟩

/-- Closed instance of C5 over two always-failing rows. -/
theorem engine_rowprocesserror_policy_witness :
    apply_to_each rpeOp true true [row0, row1] ⟨0, 0, 0, []⟩ =
      ⟨[row0, row1],
       ⟨0, 0, 2, [.rowProcessError "bad", .rowProcessError "bad"]⟩, none⟩ ∧
    apply_to_each rpeOp false true [row0, row1] ⟨0, 0, 0, []⟩ =
      ⟨[], ⟨0, 0, 0, []⟩, some (.rowProcessError "bad", row0, [row1])⟩ := by
  have h := engine_rowprocesserror_policy rpeOp true row0 [row1] ⟨0, 0, 0, []⟩
    (.rowProcessError "bad") rfl rfl rfl
  constructor
  · rw [h.1]; decide
  · exact h.2

/-! ### C6 -/

/-- C6: a row with a previous result is emitted unchanged with `skipped`
incremented and `apply` never invoked; a successful row is emitted as the
merge of the input row with the result — result fields winning on key
collision — with `completed` incremented; and a table whose rows all report a
previous result passes through the engine unchanged with `completed` left as
is. -/
theorem engine_skip_and_merge (op : Operation) (sf sp : Bool) (row res : Row)
    (rest rows : List Row) (stats : RunStatistics) :
    ((sp && op.has_previous_result row) = true →
      apply_to_each op sf sp (row :: rest) stats =
        ⟨row :: (apply_to_each op sf sp rest
            ⟨stats.completed, stats.skipped + 1, stats.failed, stats.errors⟩).emitted,
         (apply_to_each op sf sp rest
            ⟨stats.completed, stats.skipped + 1, stats.failed, stats.errors⟩).stats,
         (apply_to_each op sf sp rest
            ⟨stats.completed, stats.skipped + 1, stats.failed, stats.errors⟩).abort⟩) ∧
    ((sp && op.has_previous_result row) = false →
      op.apply_safe row = .ok res →
      apply_to_each op sf sp (row :: rest) stats =
        ⟨dictMerge row res :: (apply_to_each op sf sp rest
            ⟨stats.completed + 1, stats.skipped, stats.failed, stats.errors⟩).emitted,
         (apply_to_each op sf sp rest
            ⟨stats.completed + 1, stats.skipped, stats.failed, stats.errors⟩).stats,
         (apply_to_each op sf sp rest
            ⟨stats.completed + 1, stats.skipped, stats.failed, stats.errors⟩).abort⟩) ∧
    (∀ a b k, List.lookup k (dictMerge a b) = optOr (List.lookup k b) (List.lookup k a)) ∧
    ((∀ r ∈ rows, op.has_previous_result r = true) →
      apply_to_each op sf true rows stats =
        ⟨rows, ⟨stats.completed, stats.skipped + rows.length, stats.failed, stats.errors⟩,
         none⟩) :=
  ⟨fun h => apply_to_each_cons_skip op sf sp row rest stats h,
   fun h ha => apply_to_each_cons_ok op sf sp row res rest stats h ha,
   fun a b k => lookup_dictMerge a b k,
   fun h => apply_to_each_all_skip op sf rows stats h⟩

/-- Closed instance of C6: a two-row all-skipping drain, and a merge where
the returned field wins. -/
theorem engine_skip_and_merge_witness :
    apply_to_each skipOp true true [row0, row1] ⟨0, 0, 0, []⟩ =
      ⟨[row0, row1], ⟨0, 2, 0, []⟩, none⟩ ∧
    List.lookup "b" (dictMerge [("a", "1"), ("b", "2")] [("b", "9")]) = some "9" := by
  have h := engine_skip_and_merge skipOp true true row0 [] [] [row0, row1] ⟨0, 0, 0, []⟩
  constructor
  · rw [h.2.2.2 (by decide)]
    decide
  · rw [h.2.2.1 [("a", "1"), ("b", "2")] [("b", "9")] "b"]
    decide

/-! ### C2 -/

/-- Fixture: a file exists at the output location and holds a different table
than the input location. -/
def envC2 : Env := ⟨true, [[("a", "1")]], []⟩

/-- C2 counterexample: with a file present at the output location,
`io.Task.run` still iterates the table loaded from the configured input
location, not the table at the output location as the claim states (that
resume logic exists only in the legacy `lico.Task.all_results`). -/
theorem task_run_input_ignores_output :
    task_run_input envC2 ≠ lico_all_results_input envC2 ∧
    task_run_input envC2 = envC2.input_table := by decide

/-- C2 (amended): `run()` always takes as input the table loaded from the
configured input at construction and never consults the output location; the
load-from-output behaviour lives only in the legacy `lico.Task.all_results`;
and the engine inside `run()` emits unchanged — without recomputation — every
row whose `has_previous_result` is true. -/
theorem task_input_determination_amended (env : Env) (t : Task) :
    task_run_input env = env.input_table ∧
    (env.output_exists = true → lico_all_results_input env = env.output_table) ∧
    ((∀ r ∈ t.input_content, t.operation.has_previous_result r = true) →
      Task.run t =
        ⟨t.input_content.reverse, ⟨0, t.input_content.length, 0, []⟩, none, []⟩) := by
  refine ⟨rfl, fun h => by simp [lico_all_results_input, h], fun h => ?_⟩
  have h' : ∀ r ∈ t.input_content.reverse, t.operation.has_previous_result r = true :=
    fun r hr => h r (List.mem_reverse.mp hr)
  unfold Task.run
  rw [apply_to_each_all_skip t.operation true t.input_content.reverse ⟨0, 0, 0, []⟩ h']
  rw [task_finish_none _ rfl]
  simp

/-- Closed instance of C2 (amended). -/
theorem task_input_determination_amended_witness :
    lico_all_results_input envC2 = envC2.output_table ∧
    Task.run ⟨skipOp, [row0, row1]⟩ = ⟨[row1, row0], ⟨0, 2, 0, []⟩, none, []⟩ := by
  have h := task_input_determination_amended envC2 ⟨skipOp, [row0, row1]⟩
  refine ⟨h.2.1 rfl, ?_⟩
  rw [h.2.2 (by decide)]
  decide

/-! ### C10 -/

/-- C10 counterexample: when `run()` raises, `input_file.content` is not left
empty — the rows never popped by the iterator are still in it. -/
theorem task_run_final_input_nonempty :
    (Task.run ⟨failOp, [row0, row1]⟩).raised = some (.valueError "boom") ∧
    (Task.run ⟨failOp, [row0, row1]⟩).finalInput = [row0] := by decide

/-- C10 (amended): `run()` pops rows from the very list held by
`input_file.content`; after a normal return the list is empty and a second
run of the same Task object iterates zero rows; after a raising run the list
retains exactly the never-consumed rows, an initial segment of the original
content. -/
theorem task_run_consumes_input (t : Task) :
    ((Task.run t).raised = none → (Task.run t).finalInput = []) ∧
    (∃ k, (Task.run t).finalInput = t.input_content.take k) ∧
    ((Task.run t).raised = none →
      Task.run ⟨t.operation, (Task.run t).finalInput⟩ = ⟨[], ⟨0, 0, 0, []⟩, none, []⟩) := by
  obtain ⟨hprov, hnone, habort⟩ :=
    apply_to_each_shape t.operation true true t.input_content.reverse ⟨0, 0, 0, []⟩
  unfold Task.run
  cases hab : (apply_to_each t.operation true true t.input_content.reverse
      ⟨0, 0, 0, []⟩).abort with
  | none =>
    rw [task_finish_none _ hab]
    exact ⟨fun _ => rfl, ⟨0, by simp⟩, fun _ => rfl⟩
  | some x =>
    obtain ⟨e, fr, rem⟩ := x
    obtain ⟨pre, hpre, hlen⟩ := habort e fr rem hab
    rw [task_finish_some _ e fr rem hab]
    refine ⟨?_, ⟨rem.length, ?_⟩, ?_⟩
    · intro h; cases h
    · have hc : t.input_content = rem.reverse ++ ([fr] ++ pre.reverse) := by
        have := congrArg List.reverse hpre
        simpa [List.reverse_append] using this
      rw [hc, show rem.length = rem.reverse.length from (List.length_reverse rem).symm]
      exact (List.take_left _ _).symm
    · intro h; cases h

/-- Closed instance of C10 (amended): a normally-completing run empties the
input content and a re-run processes nothing. -/
theorem task_run_consumes_input_witness :
    (Task.run ⟨noopOp, [row0, row1]⟩).finalInput = [] ∧
    Task.run ⟨noopOp, (Task.run ⟨noopOp, [row0, row1]⟩).finalInput⟩ =
      ⟨[], ⟨0, 0, 0, []⟩, none, []⟩ :=
  ⟨(task_run_consumes_input ⟨noopOp, [row0, row1]⟩).1 rfl,
   (task_run_consumes_input ⟨noopOp, [row0, row1]⟩).2.2 rfl⟩

/-! ### C4 -/

/-- C4 counterexample: `apply_safe` converts a `KeyError` into the *base*
`RowProcessError`, not into the `MissingInputColumnError` subclass (the
spec's `MissingFieldError`), which the source defines but never raises. -/
theorem apply_safe_raises_base_rowprocesserror :
    Operation.apply_safe keyErrOp [] =
      .error (.rowProcessError ("Missing column " ++ pyQuote "date")) ∧
    isMissingFieldError (.rowProcessError ("Missing column " ++ pyQuote "date")) = false ∧
    isRowProcessError (.rowProcessError ("Missing column " ++ pyQuote "date")) = true :=
  ⟨rfl, rfl, rfl⟩

/-- C4 (amended): `apply_safe` converts a `KeyError` not already expressed as
a `RowProcessError` into a `RowProcessError` (the base class, not the
`MissingInputColumnError` subtype) whose message carries the offending field
name; `RowProcessError`s and successes pass through unchanged, so all
row-level failures reach the engine as `RowProcessError`s. -/
theorem apply_safe_keyerror_conversion (op : Operation) (row : Row) :
    (∀ k, op.apply row = .error (.keyError k) →
      op.apply_safe row =
        .error (.rowProcessError ("Missing column " ++ pyQuote k)) ∧
      isRowProcessError (.rowProcessError ("Missing column " ++ pyQuote k)) = true ∧
      isMissingFieldError (.rowProcessError ("Missing column " ++ pyQuote k)) = false) ∧
    (∀ e, op.apply row = .error e → isRowProcessError e = true →
      op.apply_safe row = .error e) ∧
    (∀ res, op.apply row = .ok res → op.apply_safe row = .ok res) := by
  refine ⟨fun k hk => ⟨?_, rfl, rfl⟩, fun e he hrpe => ?_, fun res hres => ?_⟩
  · simp [Operation.apply_safe, hk]
  · cases e <;> simp_all [Operation.apply_safe, isRowProcessError]
  · simp [Operation.apply_safe, hres]

/-- Closed instance of C4 (amended). -/
theorem apply_safe_keyerror_conversion_witness :
    Operation.apply_safe keyErrOp [("x", "1")] =
      .error (.rowProcessError ("Missing column " ++ pyQuote "date")) :=
  ((apply_safe_keyerror_conversion keyErrOp [("x", "1")]).1 "date" rfl).1

/-! ### C7 -/

/-- A `ValidExtrasEnum` certificate from finitely checkable conditions. -/
lemma validExtrasEnum_of_bounded (t : Table) (enum : List String)
    (h1 : enum.Nodup)
    (h2 : ∀ k ∈ enum, k ∈ contentKeys t ∧ k ∉ t.column_order)
    (h3 : ∀ k ∈ contentKeys t, k ∉ t.column_order → k ∈ enum) :
    ValidExtrasEnum t enum :=
  ⟨h1, fun k => ⟨fun hk => h2 k hk, fun hk => h3 k hk.1 hk.2⟩⟩

/-- Fixture: a table with no remembered order whose single row lists `b`
before `a`. -/
def tbl7 : Table := ⟨[[("b", "1"), ("a", "1")]], []⟩

/-- C7 counterexample: `["a", "b"]` is a listing the Python set in
`get_fieldnames` may produce (set iteration order over strings is
hash-dependent and unspecified), yet it is not the first-encountered order
`["b", "a"]` — so the extras order is neither first-encountered nor
deterministic. -/
theorem get_fieldnames_hash_order :
    ValidExtrasEnum tbl7 ["a", "b"] ∧
    get_fieldnames tbl7 ["a", "b"] ≠
      tbl7.column_order ++ firstEncounteredExtras tbl7 := by
  refine ⟨validExtrasEnum_of_bounded _ _ (by decide) (by decide) (by decide), by decide⟩

/-- C7 (amended): `get_fieldnames` returns the remembered column order first,
followed by a duplicate-free listing — in an unspecified, hash-dependent
order — of exactly the column names that occur in some row but not in the
remembered order. -/
theorem get_fieldnames_extras_characterization (t : Table) (enum : List String)
    (h : ValidExtrasEnum t enum) :
    get_fieldnames t enum = t.column_order ++ enum ∧
    ((get_fieldnames t enum).drop t.column_order.length).Nodup ∧
    (∀ k, k ∈ get_fieldnames t enum ↔ (k ∈ t.column_order ∨ k ∈ contentKeys t)) ∧
    (∀ k ∈ (get_fieldnames t enum).drop t.column_order.length, k ∉ t.column_order) := by
  obtain ⟨hnd, hmem⟩ := h
  have hdrop : (get_fieldnames t enum).drop t.column_order.length = enum := by
    simp [get_fieldnames]
  refine ⟨rfl, by rw [hdrop]; exact hnd, fun k => ?_,
    by rw [hdrop]; exact fun k hk => ((hmem k).mp hk).2⟩
  simp only [get_fieldnames, List.mem_append, hmem k]
  tauto

/-- Closed instance of C7 (amended). -/
theorem get_fieldnames_extras_characterization_witness :
    get_fieldnames ⟨[[("b", "1")], [("a", "2")]], ["b"]⟩ ["a"] =
      ["b"] ++ ["a"] := by
  have hv : ValidExtrasEnum ⟨[[("b", "1")], [("a", "2")]], ["b"]⟩ ["a"] :=
    validExtrasEnum_of_bounded _ _ (by decide) (by decide) (by decide)
  exact (get_fieldnames_extras_characterization _ _ hv).1

/-! ### C8 -/

/-- C8: `concat` appends the rows of `other` and recomputes the column order
as the order-preserving union: self's fieldnames first, then the fieldnames
of `other` not already present, in their original order. -/
theorem concat_fieldname_union (t o : Table) (enumT enumO : List String)
    (hT : (get_fieldnames t enumT).Nodup) (hO : (get_fieldnames o enumO).Nodup) :
    (Table.concat t o enumT enumO).content = t.content ++ o.content ∧
    (Table.concat t o enumT enumO).column_order =
      get_fieldnames t enumT ++
        (get_fieldnames o enumO).filter
          (fun k => !((get_fieldnames t enumT).contains k)) := by
  refine ⟨rfl, ?_⟩
  show dedupKeepFirst (get_fieldnames t enumT ++ get_fieldnames o enumO) = _
  rw [dedupKeepFirst, dedupAux_append, dedupAux_nodup_filter _ [] hT]
  have hfilt : (get_fieldnames t enumT).filter
      (fun k => !(([] : List String).contains k)) = get_fieldnames t enumT := by
    simp
  rw [hfilt, List.nil_append, dedupAux_nodup_filter _ (get_fieldnames t enumT) hO]

/-- Closed instance of C8: columns `[A, B]` concatenated with `[A, C]` give
column order `[A, B, C]`. -/
theorem concat_fieldname_union_witness :
    (Table.concat ⟨[], ["A", "B"]⟩ ⟨[], ["A", "C"]⟩ [] []).column_order =
      ["A", "B", "C"] := by
  rw [(concat_fieldname_union ⟨[], ["A", "B"]⟩ ⟨[], ["A", "C"]⟩ [] []
    (by decide) (by decide)).2]
  decide

/-! ### C9 -/

/-- C9 counterexample: a mismatched override fails with `ValueError`, not
with the spec's `ConfigError` (no such class exists in the source); moreover
an explicitly supplied *empty* override is treated like no override at all
(Python truthiness), succeeding despite the length mismatch `0 ≠ 2`. -/
theorem init_from_path_valueerror_not_configerror :
    CSVFile.init_from_path ["a", "b"] [] (some ["only_one"]) =
      .error (.valueError csvMismatchMsg) ∧
    isConfigError (.valueError csvMismatchMsg) = false ∧
    CSVFile.init_from_path ["a", "b"] [] (some []) = .ok ⟨[], ["a", "b"]⟩ :=
  ⟨rfl, rfl, rfl⟩

/-- C9 (amended): for a non-empty explicit override, loading succeeds with
the override as column order exactly when its length equals the header's
column count, and otherwise fails with `ValueError` (not `ConfigError`). -/
theorem init_from_path_override_length_check (header : List String) (rows : List Row)
    (n : String) (ns : List String) :
    ((n :: ns).length = header.length →
      CSVFile.init_from_path header rows (some (n :: ns)) = .ok ⟨rows, n :: ns⟩) ∧
    ((n :: ns).length ≠ header.length →
      CSVFile.init_from_path header rows (some (n :: ns)) =
        .error (.valueError csvMismatchMsg) ∧
      ∀ e, CSVFile.init_from_path header rows (some (n :: ns)) = .error e →
        isConfigError e = false) := by
  constructor
  · intro h
    have h' : ns.length + 1 = header.length := by simpa using h
    simp [CSVFile.init_from_path, h']
  · intro h
    have h' : ¬(ns.length + 1 = header.length) := by simpa using h
    refine ⟨by simp [CSVFile.init_from_path, h'], fun e he => ?_⟩
    simp [CSVFile.init_from_path, h'] at he
    simp [← he, isConfigError]

/-- Closed instance of C9 (amended). -/
theorem init_from_path_override_length_check_witness :
    CSVFile.init_from_path ["a", "b"] [] (some ["x", "y"]) = .ok ⟨[], ["x", "y"]⟩ ∧
    CSVFile.init_from_path ["a"] [] (some ["x", "y"]) =
      .error (.valueError csvMismatchMsg) :=
  ⟨(init_from_path_override_length_check ["a", "b"] [] "x" ["y"]).1 (by decide),
   ((init_from_path_override_length_check ["a"] [] "x" ["y"]).2 (by decide)).1⟩

end Lico
